import Mathlib

/-!
Shallow embedding of the media-conversion pipeline and batch runner of the
ILBC-Pre-Music repository, together with proofs of the specified properties.

Sources embedded:
- `src/utils/audioConverter.ts` : `convertMedia` (trim-bound and target
  frame-count computation) and `bufferToWav` (RIFF/WAVE container encoder);
- `src/components/Converter.tsx` : `addFilesToQueue` (submission validation)
  and `startBatchConversion` (sequential batch runner with cancellation).

Conventions: byte streams are `List Nat` with every element `< 256`; float
samples are modelled as rationals (the JavaScript doubles are exact on all
values the claims touch); JavaScript `Math.floor` is `Int.floor`, JS
truncation-toward-zero (`ToInteger`, applied by `Int16Array` stores and by
the bitwise operators) is `jsTrunc`; the `AbortSignal` is a `Bool` (the
encode loop is synchronous, so the signal cannot change mid-loop) and the
`throw new Error('Aborted')` exits are an `Except String` error.
-/

/-- Little-endian byte pair written by `DataView.setUint16(offset, v, true)`. -/
def u16le (n : Nat) : List Nat := [n % 256, n / 256 % 256]

/-- Little-endian byte quadruple written by `DataView.setUint32(offset, v, true)`. -/
def u32le (n : Nat) : List Nat :=
  [n % 256, n / 256 % 256, n / 65536 % 256, n / 16777216 % 256]

/-- Three little-endian bytes, as produced by the `setUint8` triple in the
24-bit branch of `bufferToWav` (`s & 0xff`, `(s >> 8) & 0xff`, `(s >> 16) & 0xff`
on a value whose magnitude is below `2 ^ 23`). -/
def bytes3le (n : Nat) : List Nat := [n % 256, n / 256 % 256, n / 65536 % 256]

/-- JavaScript truncation toward zero (the `ToInteger` step of `ToInt16` /
`ToInt32`, which JavaScript applies before storing into an `Int16Array` or
using a value with bitwise operators). -/
def jsTrunc (q : ℚ) : ℤ := if q < 0 then ⌈q⌉ else ⌊q⌋

/-- One 16-bit sample of the interleaved data section of `bufferToWav`
(lines 136-140): clamp to `[-1, 1]`, scale negatives by `0x8000` and
non-negatives by `0x7FFF`, store via `Int16Array` (truncate toward zero,
reduce mod `2 ^ 16`, two little-endian bytes). -/
def encodeSample16 (x : ℚ) : List Nat :=
  let sample := max (-1) (min 1 x)
  let s : ℤ := jsTrunc (if sample < 0 then sample * 0x8000 else sample * 0x7FFF)
  u16le (s % 65536).toNat

/-- One 24-bit sample of the data section of `bufferToWav` (lines 148-157):
clamp to `[-1, 1]`, scale negatives by `0x800000` and non-negatives by
`0x7FFFFF`, truncate toward zero, and emit the three low little-endian bytes
of the 32-bit two's-complement pattern (equivalently of the value mod `2 ^ 24`). -/
def encodeSample24 (x : ℚ) : List Nat :=
  let sample := max (-1) (min 1 x)
  let s : ℤ := jsTrunc (if sample < 0 then sample * 0x800000 else sample * 0x7FFFFF)
  bytes3le (s % 16777216).toNat

/-- A rendered Web Audio `AudioBuffer`: channel count, per-channel frame
count, sample rate, and the per-channel sample data
(`channelData c i` is sample `i` of channel `c`; `getChannelData` always
returns `length` samples per channel). -/
structure AudioBuffer where
  numberOfChannels : Nat
  length : Nat
  sampleRate : Nat
  channelData : Nat → Nat → ℚ

/-- Bytes of one frame of the 16-bit interleaved data section: the inner
`for (channel = 0; channel < numOfChan; channel++)` loop of `bufferToWav`,
writing channels `0, …, c - 1` of frame `i` in order. -/
def frameBytes16 (ab : AudioBuffer) (i : Nat) : Nat → List Nat
  | 0 => []
  | c + 1 => frameBytes16 ab i c ++ encodeSample16 (ab.channelData c i)

/-- Bytes of one frame of the 24-bit data section (inner channel loop). -/
def frameBytes24 (ab : AudioBuffer) (i : Nat) : Nat → List Nat
  | 0 => []
  | c + 1 => frameBytes24 ab i c ++ encodeSample24 (ab.channelData c i)

/-- The outer `for (i = 0; i < sampleCount; i++)` loop of the 16-bit branch
of `bufferToWav`, frames `0, …, n - 1`: at the top of each iteration the
abort signal is polled every 100000 frames
(`if (i % 100000 === 0 && signal?.aborted) throw new Error('Aborted')`). -/
def dataBytes16 (ab : AudioBuffer) (signal : Bool) : Nat → Except String (List Nat)
  | 0 => Except.ok []
  | n + 1 => do
    let prev ← dataBytes16 ab signal n
    if n % 100000 = 0 ∧ signal = true then Except.error "Aborted"
    else Except.ok (prev ++ frameBytes16 ab n ab.numberOfChannels)

/-- The outer frame loop of the 24-bit branch of `bufferToWav`, with the
same periodic abort poll. -/
def dataBytes24 (ab : AudioBuffer) (signal : Bool) : Nat → Except String (List Nat)
  | 0 => Except.ok []
  | n + 1 => do
    let prev ← dataBytes24 ab signal n
    if n % 100000 = 0 ∧ signal = true then Except.error "Aborted"
    else Except.ok (prev ++ frameBytes24 ab n ab.numberOfChannels)

/-- The container encoder `bufferToWav` of `src/utils/audioConverter.ts`
(lines 91-162): the 44-byte RIFF/WAVE header followed by the interleaved
sample data, little-endian throughout. The only `throw` in its body is the
periodic abort poll inside the sample loop. -/
def bufferToWav (abuffer : AudioBuffer) (bitDepth : Nat) (signal : Bool) :
    Except String (List Nat) :=
  let numOfChan := abuffer.numberOfChannels
  let bytesPerSample := bitDepth / 8
  let dataLength := abuffer.length * numOfChan * bytesPerSample
  let fileLength := dataLength + 44
  let header :=
    u32le 0x46464952 ++                                    -- "RIFF"
    u32le (fileLength - 8) ++                              -- file length - 8
    u32le 0x45564157 ++                                    -- "WAVE"
    u32le 0x20746d66 ++                                    -- "fmt " chunk
    u32le 16 ++                                            -- length = 16
    u16le 1 ++                                             -- PCM (uncompressed)
    u16le numOfChan ++
    u32le abuffer.sampleRate ++
    u32le (abuffer.sampleRate * bytesPerSample * numOfChan) ++  -- avg. bytes/sec
    u16le (numOfChan * bytesPerSample) ++                  -- block-align
    u16le bitDepth ++                                      -- 16-bit or 24-bit
    u32le 0x61746164 ++                                    -- "data" chunk
    u32le dataLength                                       -- chunk length
  if bitDepth = 16 then
    (dataBytes16 abuffer signal abuffer.length).map (fun d => header ++ d)
  else
    (dataBytes24 abuffer signal abuffer.length).map (fun d => header ++ d)

/-- The 44 header bytes as the specification describes them (spec §4.4 and
§8, "WAV header byte-exactness"), for `N` frames, `C` channels, sample rate
44100 and bit depth 16: ASCII `"RIFF"`, total file length minus 8 as a
little-endian u32, `"WAVE"`, a `"fmt "` sub-chunk of length 16 with format
tag 1, channel count `C`, sample rate 44100, byte rate `44100 * 2 * C`,
block align `2 * C`, bits-per-sample 16, then `"data"` with chunk length
`N * C * 2`. Stated from the spec wording, to be compared with the header
produced by `bufferToWav`. -/
def specWavHeader (N C : Nat) : List Nat :=
  [0x52, 0x49, 0x46, 0x46] ++                              -- "RIFF"
  u32le (44 + N * C * 2 - 8) ++
  [0x57, 0x41, 0x56, 0x45] ++                              -- "WAVE"
  [0x66, 0x6d, 0x74, 0x20] ++                              -- "fmt "
  u32le 16 ++
  u16le 1 ++
  u16le C ++
  u32le 44100 ++
  u32le (44100 * 2 * C) ++
  u16le (2 * C) ++
  u16le 16 ++
  [0x64, 0x61, 0x74, 0x61] ++                              -- "data"
  u32le (N * C * 2)

/-- The requested trim range of `convertMedia`, in seconds. -/
structure TrimOptions where
  start : ℚ
  «end» : ℚ

/-- The trim-bound computation of `convertMedia`
(`src/utils/audioConverter.ts` lines 46-60): with no trim request the full
buffer `(0, decodedLength)` is used; otherwise
`startOffset = max(0, floor(start * sampleRate))` and
`endOffset = min(length, floor(end * sampleRate))`, and a degenerate range
(`startOffset >= endOffset`) falls back to the full buffer while emitting
the warning log line. Returns the offsets together with the warnings
emitted through `onLog`. -/
def computeTrimBounds (decodedLength : Nat) (decodedSampleRate : ℚ)
    (trim : Option TrimOptions) : (ℤ × ℤ) × List String :=
  match trim with
  | none => ((0, (decodedLength : ℤ)), [])
  | some t =>
    let startOffset : ℤ := max 0 ⌊t.start * decodedSampleRate⌋
    let endOffset : ℤ := min (decodedLength : ℤ) ⌊t.«end» * decodedSampleRate⌋
    if startOffset ≥ endOffset then
      ((0, (decodedLength : ℤ)), ["Warning: Invalid trim range, using full duration."])
    else
      ((startOffset, endOffset), [])

/-- The target frame-count computation of `convertMedia` (lines 62-63):
`sourceDuration = (endOffset - startOffset) / decodedSampleRate` and
`targetFrameCount = max(1, round(sourceDuration * sampleRate))`; this is the
length requested from the `OfflineAudioContext`, which renders exactly that
many frames per channel. JavaScript `Math.round` is `round` on rationals
(half-integers round up in both). -/
def targetFrameCount (startOffset endOffset : ℤ)
    (decodedSampleRate sampleRate : ℚ) : ℤ :=
  let sourceDuration : ℚ := ((endOffset - startOffset : ℤ) : ℚ) / decodedSampleRate
  max 1 (round (sourceDuration * sampleRate))

/-- The conversion output as a function of the external rendering capability:
`convertMedia` slices by `computeTrimBounds`, hands the slice to the
platform renderer (`OfflineAudioContext.startRendering`, abstracted as an
arbitrary function of the slice bounds) and encodes the rendered buffer with
`bufferToWav`. -/
def convertMediaOutput (render : ℤ × ℤ → AudioBuffer) (bitDepth : Nat)
    (decodedLength : Nat) (decodedSampleRate : ℚ) (trim : Option TrimOptions) :
    Except String (List Nat) :=
  bufferToWav (render (computeTrimBounds decodedLength decodedSampleRate trim).1)
    bitDepth false

/-- Job status of a queued track (`src/types.ts`). -/
inductive Status where
  | waiting
  | processing
  | done
  | error
  deriving DecidableEq, Repr

/-- A queued track, reduced to the fields the batch runner reads and writes. -/
structure Track where
  id : Nat
  status : Status
  deriving DecidableEq, Repr

/-- Result of running one job's pipeline (`convertMedia` inside the `try` of
the batch loop): it resolves with a blob, rejects with the `'Aborted'` error
after a cancellation signal, or rejects with any other error. -/
inductive Outcome where
  | success
  | failure
  | aborted
  deriving DecidableEq, Repr

/-- The status update `setTracks(prev => prev.map(f => f.id === item.id ?
aaa : f))` used throughout `startBatchConversion`. -/
def setStatus (tracks : List Track) (id : Nat) (st : Status) : List Track :=
  tracks.map (fun f => if f.id = id then { f with status := st } else f)

/-- The cancellation recovery `prev.map(f => f.status === 'processing' ?
waiting : f)` of the `'Aborted'` catch branch. -/
def revertProcessing (tracks : List Track) : List Track :=
  tracks.map (fun f => if f.status = Status.processing then
    { f with status := Status.waiting } else f)

/-- The eligible-job snapshot taken at run start:
`tracks.filter(f => f.status === 'waiting' || f.status === 'error')`. -/
def eligibleTracks (tracks : List Track) : List Track :=
  tracks.filter (fun f => f.status = Status.waiting ∨ f.status = Status.error)

/-- Everything a batch run produces: `trace` is the list of job-list states
after each `setTracks` status update (in order), `processed` the ids marked
`processing` in order, `final` the job list when the loop exits. -/
structure RunResult where
  trace : List (List Track)
  processed : List Nat
  final : List Track

/-- The `for (const item of waitingFiles)` loop of `startBatchConversion`
(`src/components/Converter.tsx` lines 263-309): mark the item `processing`;
on success mark it `done` (via `onComplete`), on a non-abort failure mark it
`error` and continue; on the `'Aborted'` rejection revert every `processing`
job to `waiting` and break out of the loop. -/
def runBatchAux (outcome : Nat → Outcome) (jobs : List Track) :
    List Track → RunResult
  | [] => ⟨[], [], jobs⟩
  | item :: rest =>
    let jobs1 := setStatus jobs item.id Status.processing
    match outcome item.id with
    | Outcome.success =>
      let jobs2 := setStatus jobs1 item.id Status.done
      let r := runBatchAux outcome jobs2 rest
      ⟨jobs1 :: jobs2 :: r.trace, item.id :: r.processed, r.final⟩
    | Outcome.failure =>
      let jobs2 := setStatus jobs1 item.id Status.error
      let r := runBatchAux outcome jobs2 rest
      ⟨jobs1 :: jobs2 :: r.trace, item.id :: r.processed, r.final⟩
    | Outcome.aborted =>
      let jobs2 := revertProcessing jobs1
      ⟨[jobs1, jobs2], [item.id], jobs2⟩

/-- The batch runner `startBatchConversion`: snapshot the eligible jobs
(status `waiting` or `error`) and run the sequential loop over them. The
per-job pipeline result is abstracted as the oracle `outcome`. -/
def startBatchConversion (outcome : Nat → Outcome) (tracks : List Track) :
    RunResult :=
  runBatchAux outcome tracks (eligibleTracks tracks)

/-- Status of the job with the given id, when present. -/
def statusOf (tracks : List Track) (id : Nat) : Option Status :=
  (tracks.find? (fun f => f.id == id)).map Track.status

/-- Number of jobs currently in `processing` state. -/
def countProcessing (tracks : List Track) : Nat :=
  (tracks.filter (fun f => f.status = Status.processing)).length

/-- Maximum accepted input size (`MAX_FILE_SIZE_MB = 1024`,
`MAX_FILE_SIZE_BYTES = MAX_FILE_SIZE_MB * 1024 * 1024`). -/
def MAX_FILE_SIZE_BYTES : Nat := 1024 * 1024 * 1024

/-- A submitted `File`: name, byte size, and MIME type hint. -/
structure InputFile where
  name : String
  size : Nat
  type : String
  deriving DecidableEq, Repr

/-- JavaScript `String.prototype.startsWith`, stated on the underlying
character lists (so that concrete instances evaluate). -/
def typeStartsWith (s p : String) : Bool := p.data.isPrefixOf s.data

/-- The per-file validation of `addFilesToQueue`
(`src/components/Converter.tsx` lines 165-173): oversized files and files
whose type hint is neither `audio/*` nor `video/*` get a validation message
(the size check first); valid files get none. -/
def validationMessage (f : InputFile) : Option String :=
  if MAX_FILE_SIZE_BYTES < f.size then
    some (f.name ++ " is too large (max 1024MB)")
  else if typeStartsWith f.type "audio/" = false ∧ typeStartsWith f.type "video/" = false then
    some (f.name ++ " is not a valid audio or video file")
  else
    none

/-- A track as created by `addFilesToQueue` for each valid file
(lines 182-192): initial status `waiting`, display name the file name. -/
structure NewTrack where
  file : InputFile
  displayName : String
  status : Status
  deriving DecidableEq, Repr

/-- The submission interface `addFilesToQueue` (lines 161-201): classify
each submitted file, report the rejection messages as one batch of
validation messages (`setError(errors.join('. '))` keeps them at batch
level, attached to no job), and create a `waiting` track per valid file. -/
def addFilesToQueue (newFiles : List InputFile) : List String × List NewTrack :=
  let errors := newFiles.filterMap validationMessage
  let validFiles := newFiles.filter (fun f => (validationMessage f).isNone)
  (errors, validFiles.map (fun f =>
    { file := f, displayName := f.name, status := Status.waiting }))

/-! Helper lemmas about the container encoder. -/

theorem encodeSample16_length (x : ℚ) : (encodeSample16 x).length = 2 := by
  simp [encodeSample16, u16le]

theorem encodeSample24_length (x : ℚ) : (encodeSample24 x).length = 3 := by
  simp [encodeSample24, bytes3le]

theorem frameBytes16_length (ab : AudioBuffer) (i : Nat) :
    ∀ c, (frameBytes16 ab i c).length = c * 2 := by
  intro c
  induction c with
  | zero => rfl
  | succ c ih => simp [frameBytes16, ih, encodeSample16_length]; ring

theorem frameBytes24_length (ab : AudioBuffer) (i : Nat) :
    ∀ c, (frameBytes24 ab i c).length = c * 3 := by
  intro c
  induction c with
  | zero => rfl
  | succ c ih => simp [frameBytes24, ih, encodeSample24_length]; ring

theorem dataBytes16_ok (ab : AudioBuffer) :
    ∀ n, ∃ d, dataBytes16 ab false n = Except.ok d ∧
      d.length = n * (ab.numberOfChannels * 2) := by
  intro n
  induction n with
  | zero => exact ⟨[], rfl, by simp⟩
  | succ n ih =>
    obtain ⟨d, hd, hlen⟩ := ih
    refine ⟨d ++ frameBytes16 ab n ab.numberOfChannels, ?_, ?_⟩
    · rw [dataBytes16, hd]
      simp only [Bool.false_eq_true, and_false, if_false]
      rfl
    · simp [hlen, frameBytes16_length]; ring

theorem dataBytes24_ok (ab : AudioBuffer) :
    ∀ n, ∃ d, dataBytes24 ab false n = Except.ok d ∧
      d.length = n * (ab.numberOfChannels * 3) := by
  intro n
  induction n with
  | zero => exact ⟨[], rfl, by simp⟩
  | succ n ih =>
    obtain ⟨d, hd, hlen⟩ := ih
    refine ⟨d ++ frameBytes24 ab n ab.numberOfChannels, ?_, ?_⟩
    · rw [dataBytes24, hd]
      simp only [Bool.false_eq_true, and_false, if_false]
      rfl
    · simp [hlen, frameBytes24_length]; ring

/-- C1: for every rendered buffer of `N` frames and `C` channels at sample
rate 44100 and bit depth 16, `bufferToWav` succeeds and produces a byte
stream whose first 44 bytes are exactly the RIFF/WAVE header described by
the specification (`specWavHeader`) and whose total length is
`44 + N * C * 2`. -/
theorem bufferToWav_header_byte_exact (N C : Nat) (data : Nat → Nat → ℚ) :
    ∃ bs, bufferToWav ⟨C, N, 44100, data⟩ 16 false = Except.ok bs ∧
      bs.take 44 = specWavHeader N C ∧ bs.length = 44 + N * C * 2 := by
  obtain ⟨d, hd, hlen⟩ := dataBytes16_ok ⟨C, N, 44100, data⟩ N
  simp only at hlen
  refine ⟨(u32le 0x46464952 ++ u32le (N * C * 2 + 44 - 8) ++ u32le 0x45564157 ++
      u32le 0x20746d66 ++ u32le 16 ++ u16le 1 ++ u16le C ++ u32le 44100 ++
      u32le (44100 * 2 * C) ++ u16le (C * 2) ++ u16le 16 ++ u32le 0x61746164 ++
      u32le (N * C * 2)) ++ d, ?_, ?_, ?_⟩
  · have h16 : bufferToWav ⟨C, N, 44100, data⟩ 16 false
        = (dataBytes16 ⟨C, N, 44100, data⟩ false N).map
          (fun d => (u32le 0x46464952 ++ u32le (N * C * 2 + 44 - 8) ++
            u32le 0x45564157 ++ u32le 0x20746d66 ++ u32le 16 ++ u16le 1 ++
            u16le C ++ u32le 44100 ++ u32le (44100 * 2 * C) ++ u16le (C * 2) ++
            u16le 16 ++ u32le 0x61746164 ++ u32le (N * C * 2)) ++ d) := rfl
    rw [h16, hd]
    rfl
  · have hH : (u32le 0x46464952 ++ u32le (N * C * 2 + 44 - 8) ++ u32le 0x45564157 ++
        u32le 0x20746d66 ++ u32le 16 ++ u16le 1 ++ u16le C ++ u32le 44100 ++
        u32le (44100 * 2 * C) ++ u16le (C * 2) ++ u16le 16 ++ u32le 0x61746164 ++
        u32le (N * C * 2)).length = 44 := by
      simp [u32le, u16le]
    rw [List.take_left' hH]
    have e1 : N * C * 2 + 44 - 8 = 44 + N * C * 2 - 8 := by
      generalize N * C * 2 = x
      omega
    rw [e1, Nat.mul_comm C 2]
    simp [specWavHeader, u32le, u16le]
  · simp only [List.length_append, hlen]
    simp [u32le, u16le]
    ring

/-- C2 (counterexample): encoding the float sample `1.0` at 24-bit depth
does NOT yield the bytes `FF 7F 00` claimed by the specification; the
clamp-scale-truncate pipeline produces `0x7FFFFF`, whose three little-endian
bytes are `FF FF 7F`. -/
theorem encodeSample24_one_not_FF7F00 :
    encodeSample24 1 = [0xFF, 0xFF, 0x7F] ∧ encodeSample24 1 ≠ [0xFF, 0x7F, 0x00] := by
  have h : encodeSample24 1 = [0xFF, 0xFF, 0x7F] := by
    unfold encodeSample24 bytes3le jsTrunc
    norm_num
    decide
  exact ⟨h, by rw [h]; decide⟩

/-- C2 (amended): encoding the float sample `1.0` at 24-bit depth yields the
three little-endian bytes of `0x7FFFFF`, namely `FF FF 7F`, and encoding
`-1.0` (scaled by `0x800000`) yields `00 00 80`. -/
theorem encodeSample24_extremes :
    encodeSample24 1 = [0xFF, 0xFF, 0x7F] ∧ encodeSample24 (-1) = [0x00, 0x00, 0x80] := by
  constructor
  · unfold encodeSample24 bytes3le jsTrunc
    norm_num
    decide
  · unfold encodeSample24 bytes3le jsTrunc
    norm_num
    rw [show ((-8388608 : ℚ)) = ((-8388608 : ℤ) : ℚ) by norm_num, Int.ceil_intCast]
    decide

/-- C9: the container encoder has no business-logic error path: for every
rendered buffer with at least one frame and bit depth 16 or 24, in the
absence of a cancellation signal `bufferToWav` always succeeds (allocation
failure lives outside this model; the abort signal is cancellation, which
the specification treats as distinct from failure). -/
theorem bufferToWav_no_error_path (ab : AudioBuffer) (bitDepth : Nat)
    (hframes : 1 ≤ ab.length) (hdepth : bitDepth = 16 ∨ bitDepth = 24) :
    ∃ bs, bufferToWav ab bitDepth false = Except.ok bs := by
  rcases hdepth with h | h <;> subst h
  · obtain ⟨d, hd, -⟩ := dataBytes16_ok ab ab.length
    exact ⟨_, by unfold bufferToWav; rw [if_pos rfl, hd]; rfl⟩
  · obtain ⟨d, hd, -⟩ := dataBytes24_ok ab ab.length
    exact ⟨_, by unfold bufferToWav; rw [if_neg (by norm_num), hd]; rfl⟩

/-- C9 witness: the encoder succeeds on a concrete one-frame mono buffer. -/
theorem bufferToWav_no_error_path_witness :
    ∃ bs, bufferToWav ⟨1, 1, 44100, fun _ _ => 0⟩ 16 false = Except.ok bs :=
  bufferToWav_no_error_path ⟨1, 1, 44100, fun _ _ => 0⟩ 16 (Nat.le_refl 1) (Or.inl rfl)

/-- C3: for every decoded buffer and requested trim range, the trim
computation yields `startFrame = max(0, floor(start * rate))` and
`endFrame = min(length, floor(end * rate))`, and whenever
`startFrame >= endFrame` it falls back to the full buffer `(0, length)`
while emitting the non-fatal warning diagnostic (the computation is total:
it never fails the job). -/
theorem trim_bounds_formula (len : Nat) (rate : ℚ) (t : TrimOptions) :
    (max 0 ⌊t.start * rate⌋ < min (len : ℤ) ⌊t.«end» * rate⌋ →
      computeTrimBounds len rate (some t) =
        ((max 0 ⌊t.start * rate⌋, min (len : ℤ) ⌊t.«end» * rate⌋), [])) ∧
    (min (len : ℤ) ⌊t.«end» * rate⌋ ≤ max 0 ⌊t.start * rate⌋ →
      computeTrimBounds len rate (some t) =
        ((0, (len : ℤ)), ["Warning: Invalid trim range, using full duration."])) := by
  constructor
  · intro h
    simp only [computeTrimBounds]
    rw [if_neg (by exact not_le.mpr h)]
  · intro h
    simp only [computeTrimBounds]
    rw [if_pos (by exact h)]

/-- C3 witness: the degenerate request `(10, 5)` (end before start) on a
20-second source at 44100 Hz falls back to the full buffer with the
diagnostic. -/
theorem trim_bounds_formula_witness :
    computeTrimBounds 882000 44100 (some ⟨10, 5⟩) =
      ((0, (882000 : ℤ)), ["Warning: Invalid trim range, using full duration."]) := by
  apply (trim_bounds_formula 882000 44100 ⟨10, 5⟩).2
  norm_num

/-- C4: for every slice and positive sample rates, the requested rendering
length is at least 1 frame and differs from
`round(frameCount * targetSampleRate / intrinsicSampleRate)` by at most 1
(in exact arithmetic it is `max 1` of exactly that rounding). -/
theorem resample_frame_count_formula (startOffset endOffset : ℤ)
    (decodedSampleRate sampleRate : ℚ)
    (hse : startOffset ≤ endOffset) (hdr : 0 < decodedSampleRate)
    (hsr : 0 < sampleRate) :
    1 ≤ targetFrameCount startOffset endOffset decodedSampleRate sampleRate ∧
    |targetFrameCount startOffset endOffset decodedSampleRate sampleRate -
        round (((endOffset - startOffset : ℤ) : ℚ) * sampleRate / decodedSampleRate)| ≤ 1 := by
  simp only [targetFrameCount]
  have harg : ((endOffset - startOffset : ℤ) : ℚ) / decodedSampleRate * sampleRate
      = ((endOffset - startOffset : ℤ) : ℚ) * sampleRate / decodedSampleRate := by
    ring
  rw [harg]
  constructor
  · exact le_max_left 1 _
  · have hq : 0 ≤ ((endOffset - startOffset : ℤ) : ℚ) * sampleRate / decodedSampleRate := by
      apply div_nonneg
      · apply mul_nonneg
        · have h0 : (0 : ℤ) ≤ endOffset - startOffset := by omega
          exact_mod_cast h0
        · exact le_of_lt hsr
      · exact le_of_lt hdr
    have hr0 : 0 ≤ round (((endOffset - startOffset : ℤ) : ℚ) * sampleRate / decodedSampleRate) := by
      rw [round_eq]
      exact Int.floor_nonneg.mpr (by linarith)
    set r := round (((endOffset - startOffset : ℤ) : ℚ) * sampleRate / decodedSampleRate)
    rcases le_or_lt 1 r with h1 | h1
    · rw [max_eq_right h1]
      simp
    · have hzero : r = 0 := by omega
      rw [hzero, max_eq_left (by norm_num)]
      norm_num

/-- C4 witness: a 441-frame slice at 44100 Hz resampled to 48000 Hz. -/
theorem resample_frame_count_formula_witness :
    1 ≤ targetFrameCount 0 441 44100 48000 ∧
    |targetFrameCount 0 441 44100 48000 -
        round (((441 - 0 : ℤ) : ℚ) * 48000 / 44100)| ≤ 1 :=
  resample_frame_count_formula 0 441 44100 48000 (by norm_num) (by norm_num) (by norm_num)

/-- C10: an explicit full-range trim (`start = 0`, `end` the buffer's full
duration `length / sampleRate`) computes the same sample slice as omitting
the trim entirely, and therefore the conversion output is byte-identical
for every rendering capability and bit depth. -/
theorem full_range_trim_identity (len : Nat) (rate : ℚ) (hrate : 0 < rate) :
    (computeTrimBounds len rate (some ⟨0, (len : ℚ) / rate⟩)).1 =
      (computeTrimBounds len rate none).1 ∧
    ∀ (render : ℤ × ℤ → AudioBuffer) (bitDepth : Nat),
      convertMediaOutput render bitDepth len rate (some ⟨0, (len : ℚ) / rate⟩) =
        convertMediaOutput render bitDepth len rate none := by
  have hbounds : (computeTrimBounds len rate (some ⟨0, (len : ℚ) / rate⟩)).1 =
      (computeTrimBounds len rate none).1 := by
    have hend : ⌊(len : ℚ) / rate * rate⌋ = (len : ℤ) := by
      rw [div_mul_cancel₀ _ (ne_of_gt hrate)]
      exact Int.floor_natCast len
    simp only [computeTrimBounds, zero_mul, Int.floor_zero, max_self, hend, min_self]
    split_ifs <;> rfl
  refine ⟨hbounds, ?_⟩
  intro render bitDepth
  unfold convertMediaOutput
  rw [hbounds]

/-- C10 witness: a two-frame buffer at rate 1. -/
theorem full_range_trim_identity_witness :
    (computeTrimBounds 2 1 (some ⟨0, ((2 : Nat) : ℚ) / 1⟩)).1 =
      (computeTrimBounds 2 1 none).1 :=
  (full_range_trim_identity 2 1 (by norm_num)).1

/-! Helper lemmas about the batch runner state updates. -/

theorem setStatus_map_id (l : List Track) (i : Nat) (st : Status) :
    (setStatus l i st).map Track.id = l.map Track.id := by
  induction l with
  | nil => rfl
  | cons f l ih =>
    simp only [setStatus, List.map_cons] at ih ⊢
    by_cases h : f.id = i <;> simp [h, ih]

theorem setStatus_not_mem (l : List Track) (i : Nat) (st : Status)
    (h : i ∉ l.map Track.id) : setStatus l i st = l := by
  induction l with
  | nil => rfl
  | cons f l ih =>
    simp only [List.map_cons, List.mem_cons, not_or] at h
    simp only [setStatus, List.map_cons] at ih ⊢
    rw [if_neg (fun hf => h.1 hf.symm), ih h.2]

theorem statusOf_setStatus_self (l : List Track) (i : Nat) (st : Status)
    (h : i ∈ l.map Track.id) : statusOf (setStatus l i st) i = some st := by
  induction l with
  | nil => simp at h
  | cons f l ih =>
    simp only [List.map_cons, List.mem_cons] at h
    by_cases hf : f.id = i
    · simp [statusOf, setStatus, List.find?, hf]
    · have h' : i ∈ l.map Track.id := by
        rcases h with h | h
        · exact absurd h.symm hf
        · exact h
      simp only [statusOf, setStatus, List.map_cons] at ih ⊢
      rw [if_neg hf]
      simp only [List.find?]
      rw [show (f.id == i) = false from beq_eq_false_iff_ne.mpr hf]
      exact ih h'

theorem statusOf_setStatus_ne (l : List Track) (i j : Nat) (st : Status)
    (h : i ≠ j) : statusOf (setStatus l j st) i = statusOf l i := by
  induction l with
  | nil => rfl
  | cons f l ih =>
    simp only [statusOf, setStatus, List.map_cons, List.find?] at ih ⊢
    by_cases hf : f.id = j
    · rw [if_pos hf]
      have : (f.id == i) = false := beq_eq_false_iff_ne.mpr (fun hfi => h (hfi ▸ hf.symm ▸ rfl))
      simp only [show ({ f with status := st } : Track).id = f.id from rfl, this]
      exact ih
    · rw [if_neg hf]
      by_cases hfi : f.id = i
      · simp [hfi]
      · simp only [show (f.id == i) = false from beq_eq_false_iff_ne.mpr hfi]
        exact ih

theorem statusOf_revertProcessing (l : List Track) (i : Nat) :
    statusOf (revertProcessing l) i =
      (statusOf l i).map
        (fun s => if s = Status.processing then Status.waiting else s) := by
  induction l with
  | nil => rfl
  | cons f l ih =>
    simp only [statusOf, revertProcessing, List.find?] at ih ⊢
    by_cases hp : f.status = Status.processing
    · rw [if_pos hp]
      by_cases hfi : f.id = i
      · simp [hfi, hp]
      · simp only [show ({ f with status := Status.waiting } : Track).id = f.id from rfl,
          show (f.id == i) = false from beq_eq_false_iff_ne.mpr hfi]
        exact ih
    · rw [if_neg hp]
      by_cases hfi : f.id = i
      · simp [hfi, hp]
      · simp only [show (f.id == i) = false from beq_eq_false_iff_ne.mpr hfi]
        exact ih

theorem mem_setStatus (l : List Track) (i : Nat) (st : Status) :
    ∀ f ∈ setStatus l i st, (f.id = i ∧ f.status = st) ∨ (f ∈ l ∧ f.id ≠ i) := by
  intro f hf
  simp only [setStatus, List.mem_map] at hf
  obtain ⟨g, hg, rfl⟩ := hf
  by_cases h : g.id = i
  · left
    simp [h]
  · right
    simp [h, hg]

/-- No job of the list is currently `processing`. -/
def noProcessing (l : List Track) : Prop :=
  ∀ f ∈ l, f.status ≠ Status.processing

theorem countProcessing_eq_zero_iff (l : List Track) :
    countProcessing l = 0 ↔ noProcessing l := by
  simp [countProcessing, List.length_eq_zero, List.filter_eq_nil_iff, noProcessing]

theorem noProcessing_revertProcessing (l : List Track) :
    noProcessing (revertProcessing l) := by
  intro f hf
  simp only [revertProcessing, List.mem_map] at hf
  obtain ⟨g, hg, rfl⟩ := hf
  by_cases h : g.status = Status.processing <;> simp [h]

theorem noProcessing_setStatus (l : List Track) (i : Nat) (st : Status)
    (hst : st ≠ Status.processing) (h : noProcessing l) :
    noProcessing (setStatus l i st) := by
  intro f hf
  rcases mem_setStatus l i st f hf with ⟨-, hs⟩ | ⟨hmem, -⟩
  · rw [hs]; exact hst
  · exact h f hmem

theorem noProcessing_mark_terminal (jobs : List Track) (i : Nat) (st : Status)
    (hst : st ≠ Status.processing) (h : noProcessing jobs) :
    noProcessing (setStatus (setStatus jobs i Status.processing) i st) := by
  intro f hf
  rcases mem_setStatus _ i st f hf with ⟨-, hs⟩ | ⟨hmem, hne⟩
  · rw [hs]; exact hst
  · rcases mem_setStatus jobs i Status.processing f hmem with ⟨hid, -⟩ | ⟨hmem2, -⟩
    · exact absurd hid hne
    · exact h f hmem2

theorem countProcessing_cons (f : Track) (l : List Track) :
    countProcessing (f :: l) =
      (if f.status = Status.processing then 1 else 0) + countProcessing l := by
  by_cases h : f.status = Status.processing <;>
    simp [countProcessing, List.filter_cons, h, Nat.add_comm]

theorem countProcessing_eq_zero_of_noProcessing (l : List Track)
    (h : noProcessing l) : countProcessing l = 0 :=
  (countProcessing_eq_zero_iff l).mpr h

theorem countProcessing_setStatus_processing_le (jobs : List Track) (i : Nat)
    (hno : noProcessing jobs) (hnd : (jobs.map Track.id).Nodup) :
    countProcessing (setStatus jobs i Status.processing) ≤ 1 := by
  induction jobs with
  | nil => simp [setStatus, countProcessing]
  | cons f l ih =>
    have hnol : noProcessing l := fun g hg => hno g (List.mem_cons_of_mem f hg)
    simp only [List.map_cons, List.nodup_cons] at hnd
    simp only [setStatus, List.map_cons]
    by_cases h : f.id = i
    · rw [if_pos h, countProcessing_cons]
      have hrest : setStatus l i Status.processing = l := by
        apply setStatus_not_mem
        rw [← h]
        exact hnd.1
      simp only [setStatus] at hrest
      rw [hrest, countProcessing_eq_zero_of_noProcessing l hnol]
      simp
    · rw [if_neg h, countProcessing_cons]
      have hf : f.status ≠ Status.processing := hno f (List.mem_cons_self f l)
      rw [if_neg hf]
      simpa using ih hnol hnd.2

theorem statusOf_eq_some (l : List Track) (i : Nat) (s : Status)
    (h : statusOf l i = some s) : ∃ f ∈ l, f.id = i ∧ f.status = s := by
  simp only [statusOf, Option.map_eq_some'] at h
  obtain ⟨f, hf, rfl⟩ := h
  refine ⟨f, List.mem_of_find?_eq_some hf, ?_, rfl⟩
  have hbeq := List.find?_some hf
  simpa using hbeq

theorem runBatchAux_trace_le_one (outcome : Nat → Outcome) :
    ∀ (queue jobs : List Track), noProcessing jobs → (jobs.map Track.id).Nodup →
      ∀ s ∈ (runBatchAux outcome jobs queue).trace, countProcessing s ≤ 1 := by
  intro queue
  induction queue with
  | nil =>
    intro jobs _ _ s hs
    simp [runBatchAux] at hs
  | cons item rest ih =>
    intro jobs hno hnd s hs
    simp only [runBatchAux] at hs
    rcases ho : outcome item.id with _ | _ | _
    · simp only [ho, List.mem_cons] at hs
      rcases hs with rfl | rfl | hs
      · exact countProcessing_setStatus_processing_le jobs item.id hno hnd
      · have h0 := countProcessing_eq_zero_of_noProcessing _
          (noProcessing_mark_terminal jobs item.id Status.done (by decide) hno)
        omega
      · exact ih _ (noProcessing_mark_terminal jobs item.id Status.done (by decide) hno)
          (by rw [setStatus_map_id, setStatus_map_id]; exact hnd) s hs
    · simp only [ho, List.mem_cons] at hs
      rcases hs with rfl | rfl | hs
      · exact countProcessing_setStatus_processing_le jobs item.id hno hnd
      · have h0 := countProcessing_eq_zero_of_noProcessing _
          (noProcessing_mark_terminal jobs item.id Status.error (by decide) hno)
        omega
      · exact ih _ (noProcessing_mark_terminal jobs item.id Status.error (by decide) hno)
          (by rw [setStatus_map_id, setStatus_map_id]; exact hnd) s hs
    · simp only [ho, List.mem_cons, List.mem_singleton] at hs
      rcases hs with rfl | rfl | hs
      · exact countProcessing_setStatus_processing_le jobs item.id hno hnd
      · have h0 := countProcessing_eq_zero_of_noProcessing _
          (noProcessing_revertProcessing (setStatus jobs item.id Status.processing))
        omega
      · simp at hs

theorem runBatchAux_processed_prefix (outcome : Nat → Outcome) :
    ∀ (queue jobs : List Track),
      ∃ rest, (runBatchAux outcome jobs queue).processed ++ rest
        = queue.map Track.id := by
  intro queue
  induction queue with
  | nil => intro jobs; exact ⟨[], rfl⟩
  | cons item rest ih =>
    intro jobs
    simp only [runBatchAux, List.map_cons]
    rcases ho : outcome item.id with _ | _ | _
    · simp only [ho]
      obtain ⟨r, hr⟩ := ih (setStatus (setStatus jobs item.id Status.processing) item.id Status.done)
      exact ⟨r, by simp [hr]⟩
    · simp only [ho]
      obtain ⟨r, hr⟩ := ih (setStatus (setStatus jobs item.id Status.processing) item.id Status.error)
      exact ⟨r, by simp [hr]⟩
    · simp only [ho]
      exact ⟨rest.map Track.id, by simp⟩

theorem runBatchAux_processed_eq (outcome : Nat → Outcome) :
    ∀ (queue jobs : List Track),
      (∀ q ∈ queue, outcome q.id ≠ Outcome.aborted) →
      (runBatchAux outcome jobs queue).processed = queue.map Track.id := by
  intro queue
  induction queue with
  | nil => intro jobs _; rfl
  | cons item rest ih =>
    intro jobs hna
    simp only [runBatchAux, List.map_cons]
    rcases ho : outcome item.id with _ | _ | _
    · simp only [ho]
      rw [ih _ (fun q hq => hna q (List.mem_cons_of_mem _ hq))]
    · simp only [ho]
      rw [ih _ (fun q hq => hna q (List.mem_cons_of_mem _ hq))]
    · exact absurd ho (hna item (List.mem_cons_self _ _))

theorem runBatchAux_final_untouched (outcome : Nat → Outcome) :
    ∀ (queue jobs : List Track) (i : Nat),
      (∀ q ∈ queue, outcome q.id ≠ Outcome.aborted) →
      i ∉ queue.map Track.id →
      statusOf (runBatchAux outcome jobs queue).final i = statusOf jobs i := by
  intro queue
  induction queue with
  | nil => intro jobs i _ _; rfl
  | cons item rest ih =>
    intro jobs i hna hi
    simp only [List.map_cons, List.mem_cons, not_or] at hi
    simp only [runBatchAux]
    rcases ho : outcome item.id with _ | _ | _
    · simp only [ho]
      rw [ih _ i (fun q hq => hna q (List.mem_cons_of_mem _ hq)) hi.2,
        statusOf_setStatus_ne _ _ _ _ hi.1, statusOf_setStatus_ne _ _ _ _ hi.1]
    · simp only [ho]
      rw [ih _ i (fun q hq => hna q (List.mem_cons_of_mem _ hq)) hi.2,
        statusOf_setStatus_ne _ _ _ _ hi.1, statusOf_setStatus_ne _ _ _ _ hi.1]
    · exact absurd ho (hna item (List.mem_cons_self _ _))

theorem runBatchAux_final_status (outcome : Nat → Outcome) :
    ∀ (queue jobs : List Track) (i : Nat),
      (∀ q ∈ queue, outcome q.id ≠ Outcome.aborted) →
      i ∈ queue.map Track.id → i ∈ jobs.map Track.id →
      statusOf (runBatchAux outcome jobs queue).final i =
        some (if outcome i = Outcome.success then Status.done else Status.error) := by
  intro queue
  induction queue with
  | nil => intro jobs i _ h _; simp at h
  | cons item rest ih =>
    intro jobs i hna hq hj
    simp only [runBatchAux]
    by_cases hir : i ∈ rest.map Track.id
    · rcases ho : outcome item.id with _ | _ | _
      · simp only [ho]
        exact ih _ i (fun q hq' => hna q (List.mem_cons_of_mem _ hq')) hir
          (by rw [setStatus_map_id, setStatus_map_id]; exact hj)
      · simp only [ho]
        exact ih _ i (fun q hq' => hna q (List.mem_cons_of_mem _ hq')) hir
          (by rw [setStatus_map_id, setStatus_map_id]; exact hj)
      · exact absurd ho (hna item (List.mem_cons_self _ _))
    · have hii : i = item.id := by
        simp only [List.map_cons, List.mem_cons] at hq
        tauto
      rcases ho : outcome item.id with _ | _ | _
      · simp only [ho]
        rw [runBatchAux_final_untouched outcome rest _ i
          (fun q hq' => hna q (List.mem_cons_of_mem _ hq')) hir]
        rw [hii, statusOf_setStatus_self _ _ _ (by rw [setStatus_map_id]; rw [hii] at hj; exact hj)]
        rw [ho]
        decide
      · simp only [ho]
        rw [runBatchAux_final_untouched outcome rest _ i
          (fun q hq' => hna q (List.mem_cons_of_mem _ hq')) hir]
        rw [hii, statusOf_setStatus_self _ _ _ (by rw [setStatus_map_id]; rw [hii] at hj; exact hj)]
        rw [ho]
        decide
      · exact absurd ho (hna item (List.mem_cons_self _ _))

theorem statusOf_revert_of_noProcessing (l : List Track) (i : Nat)
    (hno : noProcessing l) :
    (statusOf l i).map
      (fun s => if s = Status.processing then Status.waiting else s) =
      statusOf l i := by
  rcases hsi : statusOf l i with _ | s
  · rfl
  · obtain ⟨f, hf, -, hstat⟩ := statusOf_eq_some l i s hsi
    have : s ≠ Status.processing := hstat ▸ hno f hf
    simp [this]

theorem runBatchAux_cancel (outcome : Nat → Outcome) (c : Track) (post : List Track)
    (hc : outcome c.id = Outcome.aborted) :
    ∀ (pre : List Track) (jobs : List Track),
      (∀ q ∈ pre, outcome q.id = Outcome.success) →
      noProcessing jobs →
      (pre.map Track.id ++ c.id :: post.map Track.id).Nodup →
      c.id ∈ jobs.map Track.id →
      (∀ q ∈ pre, q.id ∈ jobs.map Track.id) →
      (∀ q ∈ pre,
        statusOf (runBatchAux outcome jobs (pre ++ c :: post)).final q.id
          = some Status.done) ∧
      statusOf (runBatchAux outcome jobs (pre ++ c :: post)).final c.id
        = some Status.waiting ∧
      (∀ i, i ∉ pre.map Track.id → i ≠ c.id →
        statusOf (runBatchAux outcome jobs (pre ++ c :: post)).final i
          = statusOf jobs i) ∧
      (runBatchAux outcome jobs (pre ++ c :: post)).processed
        = pre.map Track.id ++ [c.id] := by
  intro pre
  induction pre with
  | nil =>
    intro jobs _ hno _ hcid _
    simp only [List.nil_append, List.map_nil, runBatchAux, hc]
    refine ⟨by simp, ?_, ?_, by simp⟩
    · rw [statusOf_revertProcessing, statusOf_setStatus_self _ _ _ hcid]
      simp
    · intro i _ hic
      rw [statusOf_revertProcessing, statusOf_setStatus_ne _ _ _ _ hic]
      exact statusOf_revert_of_noProcessing jobs i hno
  | cons p pre' ih =>
    intro jobs hpre hno hnd hcid hpids
    have hop : outcome p.id = Outcome.success := hpre p (List.mem_cons_self _ _)
    simp only [List.cons_append, runBatchAux, hop, List.map_cons, List.append_eq]
    have hno2 : noProcessing (setStatus (setStatus jobs p.id Status.processing)
        p.id Status.done) :=
      noProcessing_mark_terminal jobs p.id Status.done (by decide) hno
    have hids2 : (setStatus (setStatus jobs p.id Status.processing)
        p.id Status.done).map Track.id = jobs.map Track.id := by
      rw [setStatus_map_id, setStatus_map_id]
    have hnd_head : p.id ∉ pre'.map Track.id ++ c.id :: post.map Track.id := by
      simp only [List.map_cons, List.cons_append, List.nodup_cons] at hnd
      exact hnd.1
    have hnd' : (pre'.map Track.id ++ c.id :: post.map Track.id).Nodup := by
      simp only [List.map_cons, List.cons_append, List.nodup_cons] at hnd
      exact hnd.2
    obtain ⟨ha', hb', hc', hd'⟩ := ih
      (setStatus (setStatus jobs p.id Status.processing) p.id Status.done)
      (fun q hq => hpre q (List.mem_cons_of_mem _ hq)) hno2 hnd'
      (hids2 ▸ hcid)
      (fun q hq => hids2 ▸ hpids q (List.mem_cons_of_mem _ hq))
    refine ⟨?_, hb', ?_, ?_⟩
    · intro q hq
      rcases List.mem_cons.mp hq with rfl | hq'
      · have hnotin_pre : q.id ∉ pre'.map Track.id := fun hmem =>
          hnd_head (List.mem_append_left _ hmem)
        have hne_c : q.id ≠ c.id := fun he =>
          hnd_head (List.mem_append_right _ (by rw [he]; exact List.mem_cons_self _ _))
        rw [hc' q.id hnotin_pre hne_c]
        exact statusOf_setStatus_self _ _ _
          (by rw [setStatus_map_id]; exact hpids q (List.mem_cons_self _ _))
      · exact ha' q hq'
    · intro i hip hic
      simp only [List.map_cons, List.mem_cons, not_or] at hip
      rw [hc' i hip.2 hic, statusOf_setStatus_ne _ _ _ _ hip.1,
        statusOf_setStatus_ne _ _ _ _ hip.1]
    · rw [hd']

/-- C5: in a batch run over the eligible snapshot, as long as no job's
pipeline observes cancellation, every eligible job ends with the terminal
status determined by its own pipeline outcome alone — a failing job is
marked `error` and the runner continues, so one job's failure never aborts
the batch. -/
theorem batch_failure_isolation (outcome : Nat → Outcome) (tracks : List Track)
    (hna : ∀ f ∈ eligibleTracks tracks, outcome f.id ≠ Outcome.aborted) :
    ∀ f ∈ eligibleTracks tracks,
      statusOf (startBatchConversion outcome tracks).final f.id =
        some (if outcome f.id = Outcome.success then Status.done
          else Status.error) := by
  intro f hf
  exact runBatchAux_final_status outcome (eligibleTracks tracks) tracks f.id hna
    (List.mem_map_of_mem Track.id hf)
    (List.mem_map_of_mem Track.id (List.mem_of_mem_filter hf))

/-- C5 witness: 3 waiting jobs where job 2's pipeline fails end the run as
`done`, `error`, `done`. -/
theorem batch_failure_isolation_witness :
    statusOf (startBatchConversion
      (fun i => if i = 2 then Outcome.failure else Outcome.success)
      [⟨1, Status.waiting⟩, ⟨2, Status.waiting⟩, ⟨3, Status.waiting⟩]).final 1
        = some Status.done ∧
    statusOf (startBatchConversion
      (fun i => if i = 2 then Outcome.failure else Outcome.success)
      [⟨1, Status.waiting⟩, ⟨2, Status.waiting⟩, ⟨3, Status.waiting⟩]).final 2
        = some Status.error ∧
    statusOf (startBatchConversion
      (fun i => if i = 2 then Outcome.failure else Outcome.success)
      [⟨1, Status.waiting⟩, ⟨2, Status.waiting⟩, ⟨3, Status.waiting⟩]).final 3
        = some Status.done := by
  have h := batch_failure_isolation
    (fun i => if i = 2 then Outcome.failure else Outcome.success)
    [⟨1, Status.waiting⟩, ⟨2, Status.waiting⟩, ⟨3, Status.waiting⟩] (by decide)
  refine ⟨?_, ?_, ?_⟩
  · simpa using h ⟨1, Status.waiting⟩ (by decide)
  · simpa using h ⟨2, Status.waiting⟩ (by decide)
  · simpa using h ⟨3, Status.waiting⟩ (by decide)

/-- C6: when the cancellation signal is observed while a job is in flight
(every eligible job before it succeeded, and no job was `processing` at run
start), the in-flight job is returned to `waiting` (not `error`), no
further job of the snapshot is started (`processed` stops at the cancelled
job), and every other job keeps its prior state. -/
theorem batch_cancellation (outcome : Nat → Outcome) (tracks pre post : List Track)
    (c : Track)
    (hsplit : eligibleTracks tracks = pre ++ c :: post)
    (hpre : ∀ q ∈ pre, outcome q.id = Outcome.success)
    (hcab : outcome c.id = Outcome.aborted)
    (hnd : (tracks.map Track.id).Nodup)
    (hnop : noProcessing tracks) :
    (∀ q ∈ pre,
      statusOf (startBatchConversion outcome tracks).final q.id
        = some Status.done) ∧
    statusOf (startBatchConversion outcome tracks).final c.id
      = some Status.waiting ∧
    (∀ i, i ∉ pre.map Track.id → i ≠ c.id →
      statusOf (startBatchConversion outcome tracks).final i
        = statusOf tracks i) ∧
    (startBatchConversion outcome tracks).processed
      = pre.map Track.id ++ [c.id] := by
  have hndE : ((eligibleTracks tracks).map Track.id).Nodup :=
    List.Nodup.sublist (List.Sublist.map Track.id (List.filter_sublist tracks)) hnd
  rw [hsplit] at hndE
  simp only [List.map_append, List.map_cons] at hndE
  have hsub : ∀ q ∈ eligibleTracks tracks, q ∈ tracks :=
    fun q hq => List.mem_of_mem_filter hq
  have hcmem : c ∈ eligibleTracks tracks := by
    rw [hsplit]
    exact List.mem_append_right _ (List.mem_cons_self _ _)
  have hpmem : ∀ q ∈ pre, q ∈ eligibleTracks tracks := by
    intro q hq
    rw [hsplit]
    exact List.mem_append_left _ hq
  simp only [startBatchConversion, hsplit]
  exact runBatchAux_cancel outcome c post hcab pre tracks hpre hnop hndE
    (List.mem_map_of_mem Track.id (hsub c hcmem))
    (fun q hq => List.mem_map_of_mem Track.id (hsub q (hpmem q hq)))

/-- C6 witness: 5 waiting jobs, cancellation observed while job 3 is in
flight: jobs 1 and 2 end `done`, job 3 is back to `waiting`, job 4 is
untouched (`waiting`), and only jobs 1, 2, 3 were ever started. -/
theorem batch_cancellation_witness :
    statusOf (startBatchConversion
      (fun i => if i = 3 then Outcome.aborted else Outcome.success)
      [⟨1, Status.waiting⟩, ⟨2, Status.waiting⟩, ⟨3, Status.waiting⟩,
        ⟨4, Status.waiting⟩, ⟨5, Status.waiting⟩]).final 1 = some Status.done ∧
    statusOf (startBatchConversion
      (fun i => if i = 3 then Outcome.aborted else Outcome.success)
      [⟨1, Status.waiting⟩, ⟨2, Status.waiting⟩, ⟨3, Status.waiting⟩,
        ⟨4, Status.waiting⟩, ⟨5, Status.waiting⟩]).final 3 = some Status.waiting ∧
    statusOf (startBatchConversion
      (fun i => if i = 3 then Outcome.aborted else Outcome.success)
      [⟨1, Status.waiting⟩, ⟨2, Status.waiting⟩, ⟨3, Status.waiting⟩,
        ⟨4, Status.waiting⟩, ⟨5, Status.waiting⟩]).final 4 = some Status.waiting ∧
    (startBatchConversion
      (fun i => if i = 3 then Outcome.aborted else Outcome.success)
      [⟨1, Status.waiting⟩, ⟨2, Status.waiting⟩, ⟨3, Status.waiting⟩,
        ⟨4, Status.waiting⟩, ⟨5, Status.waiting⟩]).processed = [1, 2, 3] := by
  have h := batch_cancellation
    (fun i => if i = 3 then Outcome.aborted else Outcome.success)
    [⟨1, Status.waiting⟩, ⟨2, Status.waiting⟩, ⟨3, Status.waiting⟩,
      ⟨4, Status.waiting⟩, ⟨5, Status.waiting⟩]
    [⟨1, Status.waiting⟩, ⟨2, Status.waiting⟩]
    [⟨4, Status.waiting⟩, ⟨5, Status.waiting⟩]
    ⟨3, Status.waiting⟩
    (by decide) (by decide) (by decide) (by decide)
    (by simp only [noProcessing]; decide)
  refine ⟨?_, ?_, ?_, ?_⟩
  · simpa using h.1 ⟨1, Status.waiting⟩ (by decide)
  · simpa using h.2.1
  · have h4 := h.2.2.1 4 (by decide) (by decide)
    rw [h4]
    decide
  · have hp := h.2.2.2
    rw [hp]
    decide

/-- C7: during a batch run started from a state with no `processing` job
and distinct job ids, every intermediate job-list state has at most one
`processing` job; the ids marked `processing` form a prefix of the eligible
snapshot (jobs with status `waiting` or `error` at run start, in submission
order), and when no cancellation occurs they are exactly that snapshot —
strict FIFO, one at a time. -/
theorem batch_single_processing_fifo (outcome : Nat → Outcome)
    (tracks : List Track)
    (hnd : (tracks.map Track.id).Nodup) (hnop : noProcessing tracks) :
    (∀ s ∈ (startBatchConversion outcome tracks).trace, countProcessing s ≤ 1) ∧
    (∃ rest, (startBatchConversion outcome tracks).processed ++ rest
      = (eligibleTracks tracks).map Track.id) ∧
    ((∀ f ∈ eligibleTracks tracks, outcome f.id ≠ Outcome.aborted) →
      (startBatchConversion outcome tracks).processed
        = (eligibleTracks tracks).map Track.id) := by
  refine ⟨?_, ?_, ?_⟩
  · exact runBatchAux_trace_le_one outcome (eligibleTracks tracks) tracks hnop hnd
  · exact runBatchAux_processed_prefix outcome (eligibleTracks tracks) tracks
  · intro hna
    exact runBatchAux_processed_eq outcome (eligibleTracks tracks) tracks hna

/-- C7 witness: with jobs 1 (`waiting`), 2 (`error`), 3 (`done`) and no
cancellation, exactly the eligible jobs 1 and 2 are processed, in order. -/
theorem batch_single_processing_fifo_witness :
    (startBatchConversion (fun _ => Outcome.success)
      [⟨1, Status.waiting⟩, ⟨2, Status.error⟩, ⟨3, Status.done⟩]).processed
      = [1, 2] := by
  have h := batch_single_processing_fifo (fun _ => Outcome.success)
    [⟨1, Status.waiting⟩, ⟨2, Status.error⟩, ⟨3, Status.done⟩]
    (by decide) (by simp only [noProcessing]; decide)
  have h2 := h.2.2 (by decide)
  rw [h2]
  decide

/-- C8: the submission interface rejects — without creating a job — every
file whose size exceeds the configured maximum or whose type hint is
neither `audio/*` nor `video/*`, reporting it in the batch-level validation
message list; every other submitted file becomes a job in `waiting` state. -/
theorem submission_validation (newFiles : List InputFile) :
    (∀ f ∈ newFiles,
      (MAX_FILE_SIZE_BYTES < f.size ∨
        (typeStartsWith f.type "audio/" = false ∧
          typeStartsWith f.type "video/" = false)) →
      (∀ j ∈ (addFilesToQueue newFiles).2, j.file ≠ f) ∧
      ∃ msg, validationMessage f = some msg ∧
        msg ∈ (addFilesToQueue newFiles).1) ∧
    (∀ f ∈ newFiles,
      f.size ≤ MAX_FILE_SIZE_BYTES ∧
        (typeStartsWith f.type "audio/" = true ∨
          typeStartsWith f.type "video/" = true) →
      ∃ j ∈ (addFilesToQueue newFiles).2,
        j.file = f ∧ j.status = Status.waiting) := by
  constructor
  · intro f hf hcond
    have hsome : ∃ msg, validationMessage f = some msg := by
      unfold validationMessage
      rcases hcond with h | h
      · rw [if_pos h]
        exact ⟨_, rfl⟩
      · by_cases h1 : MAX_FILE_SIZE_BYTES < f.size
        · rw [if_pos h1]
          exact ⟨_, rfl⟩
        · rw [if_neg h1, if_pos h]
          exact ⟨_, rfl⟩
    obtain ⟨msg, hmsg⟩ := hsome
    constructor
    · intro j hj
      simp only [addFilesToQueue, List.mem_map, List.mem_filter] at hj
      obtain ⟨g, ⟨hgmem, hgnone⟩, rfl⟩ := hj
      intro hgf
      simp only at hgf
      rw [hgf, hmsg] at hgnone
      simp at hgnone
    · refine ⟨msg, hmsg, ?_⟩
      simp only [addFilesToQueue, List.mem_filterMap]
      exact ⟨f, hf, hmsg⟩
  · intro f hf hcond
    have hnone : validationMessage f = none := by
      unfold validationMessage
      rw [if_neg (not_lt.mpr hcond.1)]
      rcases hcond.2 with h | h
      · rw [if_neg (by simp [h])]
      · rw [if_neg (by simp [h])]
    refine ⟨⟨f, f.name, Status.waiting⟩, ?_, rfl, rfl⟩
    simp only [addFilesToQueue, List.mem_map, List.mem_filter]
    exact ⟨f, ⟨hf, by simp [hnone]⟩, rfl⟩

/-- C8 witness: of the two submitted files, the valid audio file becomes a
`waiting` job and the rejected text file yields no job. -/
theorem submission_validation_witness :
    (∃ j ∈ (addFilesToQueue
      [⟨"a.mp3", 100, "audio/mpeg"⟩, ⟨"b.txt", 100, "text/plain"⟩]).2,
      j.file = ⟨"a.mp3", 100, "audio/mpeg"⟩ ∧ j.status = Status.waiting) ∧
    (∀ j ∈ (addFilesToQueue
      [⟨"a.mp3", 100, "audio/mpeg"⟩, ⟨"b.txt", 100, "text/plain"⟩]).2,
      j.file ≠ ⟨"b.txt", 100, "text/plain"⟩) := by
  have h := submission_validation
    [⟨"a.mp3", 100, "audio/mpeg"⟩, ⟨"b.txt", 100, "text/plain"⟩]
  constructor
  · exact h.2 ⟨"a.mp3", 100, "audio/mpeg"⟩ (by decide)
      ⟨by decide, Or.inl (by decide)⟩
  · exact fun j hj => ((h.1 ⟨"b.txt", 100, "text/plain"⟩ (by decide)
      (Or.inr ⟨by decide, by decide⟩)).1 j hj)
